import Mathlib

/-!
Verification of the trade module of epymetheus (src/epymetheus/trade.py)
against its natural-language specification.

Shallow embedding conventions:
  * Python floats are modelled as rationals (ℚ); numpy 1-D arrays as
    `List ℚ`; a 2-D array of shape (bars, orders) as `List (List ℚ)`
    (list of rows).
  * Row labels of a price table (`universe.index`) are modelled as `Int`.
  * Operations that can raise a Python exception return `Except Err _`.
  * `None` is modelled as `Option.none`.
-/

namespace Epym

attribute [local semireducible] Rat.add Rat.sub Rat.mul Rat.inv

/-- Python exceptions raised by the trade module. -/
inductive Err where
  | keyError
  | typeError
  | attributeError
  | broadcastError
  | indexError
  deriving Repr, DecidableEq

deriving instance DecidableEq for Except

/-- Row labels of the price table. -/
abbrev Label := Int

/-- A numpy-style operand that is either a scalar or a 1-D array,
as accepted by `lot=` in the constructor and by the scaling operators. -/
inductive NpOperand where
  | scalar (x : ℚ)
  | array (xs : List ℚ)
  deriving Repr, DecidableEq

/-- The `Trade` object of trade.py.  The attribute `close` is absent on a
Pending trade and set by `execute`; absence is modelled by `Option.none`. -/
structure Trade where
  asset : List String
  entry : Option Label := none
  exit : Option Label := none
  take : Option ℚ := none
  stop : Option ℚ := none
  lot : List ℚ := [1]
  close : Option Label := none
  deriving Repr, DecidableEq

/-- np.broadcast_to(np.asarray(lot), (n,)): a scalar broadcasts to length n,
a length-1 array broadcasts to length n, a length-n array is unchanged, and
any other shape raises an error. -/
def broadcast_to (lot : NpOperand) (n : Nat) : Except Err (List ℚ) :=
  match lot with
  | .scalar x => .ok (List.replicate n x)
  | .array xs =>
    if xs.length = n then .ok xs
    else if xs.length = 1 then .ok (List.replicate n (xs.headD 0))
    else .error .broadcastError

/-- Trade.init (the constructor): `asset` is already normalised to a flat
list of identifiers (np.asarray(asset).reshape(-1)); `lot` is broadcast to
the shape of `asset`.  `close` is not an accepted parameter. -/
def Trade.init (asset : List String) (en ex : Option Label)
    (tk st : Option ℚ) (lot : NpOperand) : Except Err Trade :=
  (broadcast_to lot asset.length).map fun l =>
    { asset := asset, entry := en, exit := ex, take := tk, stop := st,
      lot := l, close := none }

/-- Element-wise numpy multiplication of a 1-D array by a scalar or by
another 1-D array, with numpy broadcasting between shapes (n,) and (m,). -/
def npMul (xs : List ℚ) (num : NpOperand) : Except Err (List ℚ) :=
  match num with
  | .scalar c => .ok (xs.map (· * c))
  | .array ys =>
    if ys.length = xs.length then .ok (List.zipWith (· * ·) xs ys)
    else if ys.length = 1 then .ok (xs.map (· * ys.headD 0))
    else if xs.length = 1 then .ok (ys.map (xs.headD 0 * ·))
    else .error .broadcastError

/-- Trade.rmul: deep-copies the trade and multiplies `lot` by `num`.
Every attribute other than `lot`, including a previously set `close`,
is carried over by the deep copy. -/
def Trade.rmul (t : Trade) (num : NpOperand) : Except Err Trade :=
  (npMul t.lot num).map fun l => { t with lot := l }

/-- Trade.mul delegates to Trade.rmul. -/
def Trade.mul (t : Trade) (num : NpOperand) : Except Err Trade :=
  t.rmul num

/-- Trade.neg: multiplication by -1.0. -/
def Trade.neg (t : Trade) : Except Err Trade :=
  t.rmul (.scalar (-1))

/-- Reciprocal 1.0/num of a scalar or of a 1-D array, element-wise. -/
def npRecip (num : NpOperand) : NpOperand :=
  match num with
  | .scalar c => .scalar (1 / c)
  | .array ys => .array (ys.map (1 / ·))

/-- Trade.truediv: multiplication by the reciprocal of `num`. -/
def Trade.truediv (t : Trade) (num : NpOperand) : Except Err Trade :=
  t.rmul (npRecip num)

/-- Trade.eq (the `__eq__` method): compares the attributes asset, entry,
exit, take, stop and lot; `close` is excluded. -/
def Trade.eq (t0 t1 : Trade) : Bool :=
  decide (t0.asset = t1.asset) && decide (t0.entry = t1.entry) &&
  decide (t0.exit = t1.exit) && decide (t0.take = t1.take) &&
  decide (t0.stop = t1.stop) && decide (t0.lot = t1.lot)

/-- The dict produced by Trade.to_dict: keys asset, entry, exit, take,
stop, lot, and close only when the trade is Executed (close = none models
the absent key). -/
structure TradeRecord where
  asset : List String
  entry : Option Label
  exit : Option Label
  take : Option ℚ
  stop : Option ℚ
  lot : List ℚ
  close : Option Label
  deriving Repr, DecidableEq

/-- Trade.to_dict: serialises every attribute; the key `close` is included
exactly when the trade has been executed. -/
def Trade.to_dict (t : Trade) : TradeRecord :=
  { asset := t.asset, entry := t.entry, exit := t.exit, take := t.take,
    stop := t.stop, lot := t.lot, close := t.close }

/-- Trade.load_dict: `cls(**d)`.  When the record carries a `close` key the
constructor receives an unexpected keyword argument and Python raises
TypeError; otherwise the constructor runs on the remaining keys. -/
def Trade.load_dict (d : TradeRecord) : Except Err Trade :=
  if d.close.isSome then .error .typeError
  else Trade.init d.asset d.entry d.exit d.take d.stop (.array d.lot)

/-- The price table (a pandas DataFrame): row labels `index`, column
labels `columns`, and `data` as a list of rows of cells.  The index is
assumed unique and ascending, `data.length = index.length` and every row
has `columns.length` cells; theorems state the parts of this
well-formedness they need. -/
structure Universe where
  index : List Label
  columns : List String
  data : List (List ℚ)
  deriving Repr, DecidableEq

/-- Number of bars (rows) of the price table. -/
def Universe.nbars (u : Universe) : Nat := u.index.length

/-- Cell of the price table at row position r, column named a. -/
def Universe.priceAt (u : Universe) (r : Nat) (a : String) : ℚ :=
  (u.data.getD r []).getD (List.indexOf a u.columns) 0

/-- universe.index.get_indexer([x]).item(): position of the first
occurrence of the label, and -1 when the label is None or absent. -/
def Universe.getIndexer (u : Universe) (x : Option Label) : Int :=
  match x with
  | none => -1
  | some l => if l ∈ u.index then (List.indexOf l u.index : Int) else -1

/-- Python index normalisation: a negative index counts from the end. -/
def pyNorm (n : Nat) (i : Int) : Int :=
  if i < 0 then (n : Int) + i else i

/-- Python row read m[i] on a list of rows, with negative-index
normalisation; out-of-range reads return [] (theorems restrict to
in-range uses, where CPython would not raise). -/
def rowGet (m : List (List ℚ)) (i : Int) : List ℚ :=
  let j := pyNorm m.length i
  if j < 0 then [] else m.getD j.toNat []

/-- Row r of Trade.array_value: the k-th cell is
lot[k] * price[r, asset[k]]. -/
def Trade.valueRow (t : Trade) (u : Universe) (r : Nat) : List ℚ :=
  List.zipWith (fun l a => l * u.priceAt r a) t.lot t.asset

/-- Trade.array_value: lot * universe.loc[:, asset].values, an array of
shape (n_bars, n_orders) given as the list of its rows. -/
def Trade.array_value (t : Trade) (u : Universe) : List (List ℚ) :=
  (List.range u.nbars).map (t.valueRow u)

/-- self.array_value(universe).sum(axis=1): combined position value
per bar. -/
def Trade.combinedValue (t : Trade) (u : Universe) : List ℚ :=
  (t.array_value u).map List.sum

/-- The pnl array of Trade.execute: value - value[i_entry], then
pnl[:i_entry] = 0. -/
def Trade.execPnl (t : Trade) (u : Universe) (iEntry : Nat) : List ℚ :=
  let value := t.combinedValue u
  List.mapIdx (fun r v => if r < iEntry then 0 else v)
    (value.map (fun v => v - value.getD iEntry 0))

/-- The boolean trigger signal of Trade.execute:
np.logical_or(pnl >= take, pnl <= stop), where an unset take is +inf
(never reached by a finite pnl) and an unset stop is -inf. -/
def Trade.signal (t : Trade) (u : Universe) (iEntry : Nat) : List Bool :=
  (t.execPnl u iEntry).map fun p =>
    (match t.take with
     | some tk => decide (tk ≤ p)
     | none => false) ||
    (match t.stop with
     | some st => decide (p ≤ st)
     | none => false)

/-- The binary search performed by np.searchsorted(a, v, side=left):
lo = 0, hi = n; while lo < hi: mid = (lo+hi)/2;
if a[mid] < v then lo = mid+1 else hi = mid; return lo.
Specialised to a boolean array and v = True, so a[mid] < v means
a[mid] = false.  The loop runs at most hi - lo times (the interval
shrinks by at least one per iteration), so it is given as structural
recursion on a fuel that the caller sets to the array length. -/
def bsearchTrue (sig : List Bool) : Nat → Nat → Nat → Nat
  | 0, lo, _hi => lo
  | fuel + 1, lo, hi =>
    if lo < hi then
      if sig.getD ((lo + hi) / 2) false = false then
        bsearchTrue sig fuel ((lo + hi) / 2 + 1) hi
      else bsearchTrue sig fuel lo ((lo + hi) / 2)
    else lo

/-- np.searchsorted(signal, True) over the whole array. -/
def searchsorted (sig : List Bool) : Nat :=
  bsearchTrue sig sig.length 0 sig.length

/-- i_close of Trade.execute: min(i_exit, np.searchsorted(signal, True)). -/
def Trade.closeIdx (t : Trade) (u : Universe) (iEntry iExit : Nat) : Nat :=
  min iExit (searchsorted (t.signal u iEntry))

/-- Trade.execute: resolves entry and exit (None falls back to the first
and last row label, raising IndexError on an empty table), checks that
every asset is a column and that entry and exit are row labels, and sets
`close`: the exit label when neither take nor stop is set, otherwise the
label at min(i_exit, searchsorted(signal, True)). -/
def Trade.execute (t : Trade) (u : Universe) : Except Err Trade := do
  let en ← match t.entry with
    | some e => pure e
    | none => match u.index.head? with
      | some h => pure h
      | none => throw Err.indexError
  let ex ← match t.exit with
    | some e => pure e
    | none => match u.index.getLast? with
      | some h => pure h
      | none => throw Err.indexError
  if t.asset.any (fun a => decide (a ∉ u.columns)) then
    throw Err.keyError
  else if en ∉ u.index then
    throw Err.keyError
  else if ex ∉ u.index then
    throw Err.keyError
  else
    let close :=
      if t.take.isSome || t.stop.isSome then
        let iEntry := List.indexOf en u.index
        let iExit := List.indexOf ex u.index
        u.index.getD (t.closeIdx u iEntry iExit) 0
      else ex
    pure { t with close := some close }

/-- Line pnl = value - value[i_entry] of Trade.final_pnl: row i_entry is
read with Python indexing (i_entry may be -1). -/
def Trade.pnlRaw (t : Trade) (u : Universe) (iEntry : Int) :
    List (List ℚ) :=
  (t.array_value u).map fun row =>
    List.zipWith (fun a b => a - b) row (rowGet (t.array_value u) iEntry)

/-- Line pnl[:i_entry] = 0 of Trade.final_pnl: every row strictly before
the normalised i_entry bound is overwritten with zeros. -/
def Trade.pnlZeroed (t : Trade) (u : Universe) (iEntry : Int) :
    List (List ℚ) :=
  List.mapIdx
    (fun r row => if (r : Int) < pyNorm u.nbars iEntry then
        row.map (fun _ => (0 : ℚ))
      else row) (t.pnlRaw u iEntry)

/-- Line pnl[i_close:] = pnl[i_close] of Trade.final_pnl: row i_close is
read (with Python indexing) after the zeroing step, and every row from
the normalised i_close bound on is overwritten with it. -/
def Trade.pnlMatrix (t : Trade) (u : Universe) (iEntry iClose : Int) :
    List (List ℚ) :=
  List.mapIdx
    (fun r row => if pyNorm u.nbars iClose ≤ (r : Int) then
        rowGet (t.pnlZeroed u iEntry) iClose
      else row) (t.pnlZeroed u iEntry)

/-- Trade.final_pnl: reads self.close (AttributeError on a Pending
trade), looks up i_entry and i_close with get_indexer (-1 when the label
is None or absent), builds the pnl matrix through array_value
(KeyError when an asset is not a column), and returns its last row. -/
def Trade.final_pnl (t : Trade) (u : Universe) : Except Err (List ℚ) :=
  match t.close with
  | none => .error .attributeError
  | some c =>
    if t.asset.any (fun a => decide (a ∉ u.columns)) then .error .keyError
    else
      let iEntry := u.getIndexer t.entry
      let iClose := u.getIndexer (some c)
      .ok (rowGet (t.pnlMatrix u iEntry iClose) (-1))

/-- The ValueError raised by check_trade, carrying the offending field
and value as the Python message does. -/
inductive ValErr where
  | assetNotFound (a : String)
  | entryNotFound (l : Label)
  | exitNotFound (l : Label)
  | lotNotFinite (lot : List ℚ)
  | takeNegative (q : ℚ)
  | stopPositive (q : ℚ)
  deriving Repr, DecidableEq

/-- np.isfinite on a cell: floats are modelled as rationals, where every
value is finite, so the check always passes in the model. -/
def isFiniteQ (_ : ℚ) : Bool := true

/-- check_trade: runs the enabled checks in source order (asset
membership, entry and exit membership, lot finiteness, take sign, stop
sign) and raises the first failing one. -/
def check_trade (t : Trade) (u : Universe)
    (check_asset check_index check_lot check_take check_stop : Bool) :
    Except ValErr Unit := do
  if check_asset then
    match t.asset.find? (fun a => decide (a ∉ u.columns)) with
    | some a => throw (ValErr.assetNotFound a)
    | none => pure ()
  if check_index then
    match t.entry with
    | some e => if e ∉ u.index then throw (ValErr.entryNotFound e)
    | none => pure ()
    match t.exit with
    | some e => if e ∉ u.index then throw (ValErr.exitNotFound e)
    | none => pure ()
  if check_lot then
    if !(t.lot.all isFiniteQ) then throw (ValErr.lotNotFinite t.lot)
  if check_take then
    match t.take with
    | some tk => if tk < 0 then throw (ValErr.takeNegative tk)
    | none => pure ()
  if check_stop then
    match t.stop with
    | some st => if 0 < st then throw (ValErr.stopPositive st)
    | none => pure ()

/-- Following the words of the specification (not the source): the
barrier detector must perform a genuine linear first-true scan over the
ordered trigger signal, returning the position of the chronologically
first true entry (the length of the array when no entry is true). -/
def specFirstTrigger (sig : List Bool) : Nat :=
  List.findIdx (fun b => b) sig

/-! Concrete sample data, used by witnesses and counterexamples.
uni7 and tr16 are the price table and trade of the execute doctest. -/

/-- The 7-row doctest price table: A0 = 1..7, A1 = 2..8, A2 = 3..9. -/
def uni7 : Universe :=
  ⟨[0, 1, 2, 3, 4, 5, 6], ["A0", "A1", "A2"],
   [[1, 2, 3], [2, 3, 4], [3, 4, 5], [4, 5, 6], [5, 6, 7], [6, 7, 8],
    [7, 8, 9]]⟩

/-- The doctest trade on A0 with entry 1 and exit 6. -/
def tr16 : Trade :=
  { asset := ["A0"], entry := some 1, exit := some 6, lot := [1] }

/-- A 3-row single-column price table with prices 1, 2, 3. -/
def uni3 : Universe := ⟨[0, 1, 2], ["A"], [[1], [2], [3]]⟩

/-- A 4-row single-column price table whose price path 1, 4, 1, 1 makes
the take trigger fire at row 1 and revert to false afterwards. -/
def uniSpike : Universe := ⟨[0, 1, 2, 3], ["A"], [[1], [4], [1], [1]]⟩

/-- A trade on uniSpike with take = 2: its trigger signal is
[false, true, false, false], non-monotonic. -/
def trSpike : Trade :=
  { asset := ["A"], entry := some 0, exit := some 3, take := some 2,
    lot := [1] }

/-- A trade with take = 0 entering at row 1 of uni3. -/
def trTake0 : Trade :=
  { asset := ["A"], entry := some 1, exit := some 2, take := some 0,
    lot := [1] }

/-- A trade on uni3 with entry and exit left as None. -/
def trNoEntry : Trade := { asset := ["A"], lot := [1] }

/-! Helper lemmas. -/

theorem getD_mapIdx {α β : Type} (l : List α) (f : Nat → α → β) (r : Nat)
    (d : β) (d0 : α) (h : r < l.length) :
    (List.mapIdx f l).getD r d = f r (l.getD r d0) := by
  rw [List.getD_eq_getElem _ _ (by simpa using h), List.getElem_mapIdx,
    List.getD_eq_getElem _ _ h]

theorem length_array_value (t : Trade) (u : Universe) :
    (t.array_value u).length = u.nbars := by
  simp [Trade.array_value]

theorem getD_array_value (t : Trade) (u : Universe) {r : Nat}
    (h : r < u.nbars) :
    (t.array_value u).getD r [] = t.valueRow u r := by
  rw [Trade.array_value, List.getD_eq_getElem _ _ (by simpa using h),
    List.getElem_map, List.getElem_range]

theorem length_combinedValue (t : Trade) (u : Universe) :
    (t.combinedValue u).length = u.nbars := by
  simp [Trade.combinedValue, length_array_value]

theorem getD_combinedValue (t : Trade) (u : Universe) {r : Nat}
    (h : r < u.nbars) :
    (t.combinedValue u).getD r 0 = (t.valueRow u r).sum := by
  have h1 : r < (t.array_value u).length := by
    simpa [length_array_value] using h
  rw [Trade.combinedValue, List.getD_eq_getElem _ _ (by simpa using h1),
    List.getElem_map]
  congr 1
  rw [← List.getD_eq_getElem _ [] h1, getD_array_value t u h]

theorem length_execPnl (t : Trade) (u : Universe) (iEntry : Nat) :
    (t.execPnl u iEntry).length = u.nbars := by
  simp [Trade.execPnl, length_combinedValue]

theorem getD_execPnl_pre (t : Trade) (u : Universe) {iEntry r : Nat}
    (hr : r < iEntry) (hn : r < u.nbars) :
    (t.execPnl u iEntry).getD r 0 = 0 := by
  rw [Trade.execPnl]
  rw [getD_mapIdx _ _ _ _ 0 (by simpa [length_combinedValue] using hn)]
  simp [hr]

theorem length_signal (t : Trade) (u : Universe) (iEntry : Nat) :
    (t.signal u iEntry).length = u.nbars := by
  simp [Trade.signal, length_execPnl]

theorem getD_signal (t : Trade) (u : Universe) {iEntry r : Nat}
    (hn : r < u.nbars) :
    (t.signal u iEntry).getD r false =
      ((match t.take with
        | some tk => decide (tk ≤ (t.execPnl u iEntry).getD r 0)
        | none => false) ||
       (match t.stop with
        | some st => decide ((t.execPnl u iEntry).getD r 0 ≤ st)
        | none => false)) := by
  rw [Trade.signal,
    List.getD_eq_getElem _ _ (by simpa [length_execPnl] using hn),
    List.getElem_map,
    List.getD_eq_getElem _ _ (by simpa [length_execPnl] using hn)]

theorem bsearchTrue_spec (sig : List Bool) :
    ∀ (fuel lo hi : Nat), hi - lo ≤ fuel → lo ≤ hi →
      lo ≤ bsearchTrue sig fuel lo hi ∧ bsearchTrue sig fuel lo hi ≤ hi ∧
      (bsearchTrue sig fuel lo hi = hi ∨
       sig.getD (bsearchTrue sig fuel lo hi) false = true) := by
  intro fuel
  induction fuel with
  | zero =>
    intro lo hi hf hle
    have : lo = hi := by omega
    subst this
    exact ⟨Nat.le_refl _, Nat.le_refl _, Or.inl rfl⟩
  | succ n ih =>
    intro lo hi hf hle
    by_cases hlt : lo < hi
    · have hmid1 : lo ≤ (lo + hi) / 2 := by omega
      have hmid2 : (lo + hi) / 2 < hi := by omega
      by_cases hsig : sig.getD ((lo + hi) / 2) false = false
      · have heq : bsearchTrue sig (n + 1) lo hi =
            bsearchTrue sig n ((lo + hi) / 2 + 1) hi := by
          rw [bsearchTrue, if_pos hlt, if_pos hsig]
        have h1 := ih ((lo + hi) / 2 + 1) hi (by omega) (by omega)
        rw [heq]
        exact ⟨by omega, h1.2.1, h1.2.2⟩
      · have heq : bsearchTrue sig (n + 1) lo hi =
            bsearchTrue sig n lo ((lo + hi) / 2) := by
          rw [bsearchTrue, if_pos hlt, if_neg hsig]
        have h1 := ih lo ((lo + hi) / 2) (by omega) (by omega)
        rw [heq]
        refine ⟨h1.1, by omega, Or.inr ?_⟩
        rcases h1.2.2 with h | h
        · rw [h]
          simpa using hsig
        · exact h
    · have heq : bsearchTrue sig (n + 1) lo hi = lo := by
        rw [bsearchTrue, if_neg hlt]
      rw [heq]
      exact ⟨Nat.le_refl _, hle, Or.inl (by omega)⟩

theorem searchsorted_spec (sig : List Bool) :
    searchsorted sig ≤ sig.length ∧
    (searchsorted sig = sig.length ∨
     sig.getD (searchsorted sig) false = true) := by
  have h := bsearchTrue_spec sig sig.length 0 sig.length (by omega) (by omega)
  exact ⟨h.2.1, h.2.2⟩

/-- C7: for every Pending trade (close never set), final_pnl raises an
error (the AttributeError from reading the absent attribute self.close)
and never returns a numeric result. -/
theorem C7_final_pnl_pending_raises (t : Trade) (u : Universe)
    (h : t.close = none) : t.final_pnl u = .error .attributeError := by
  simp [Trade.final_pnl, h]

/-- Witness for C7 at a concrete pending trade and table. -/
theorem C7_final_pnl_pending_raises_witness :
    trNoEntry.close = none ∧
    trNoEntry.final_pnl uni3 = .error .attributeError :=
  ⟨rfl, C7_final_pnl_pending_raises trNoEntry uni3 rfl⟩

/-- C8: scaling a trade (c * t via rmul, t * c via mul, t / c via
truediv, -t via neg) yields a new trade in which only lot is replaced by
the element-wise product, while asset, entry, exit, take, stop, and any
previously set close are carried over unchanged; the embedding is pure,
so the source trade itself is untouched. -/
theorem C8_scaling_only_multiplies_lot (t : Trade) (c : ℚ) (ys : List ℚ) :
    (t.rmul (.scalar c) = .ok { t with lot := t.lot.map (· * c) }) ∧
    (t.mul (.scalar c) = .ok { t with lot := t.lot.map (· * c) }) ∧
    (ys.length = t.lot.length →
      t.rmul (.array ys) =
        .ok { t with lot := List.zipWith (· * ·) t.lot ys }) ∧
    (ys.length = t.lot.length →
      t.mul (.array ys) =
        .ok { t with lot := List.zipWith (· * ·) t.lot ys }) ∧
    (t.neg = .ok { t with lot := t.lot.map (· * (-1)) }) ∧
    (c ≠ 0 →
      t.truediv (.scalar c) =
        .ok { t with lot := t.lot.map (· * (1 / c)) }) ∧
    (ys.length = t.lot.length → (∀ y ∈ ys, y ≠ 0) →
      t.truediv (.array ys) =
        .ok { t with lot := List.zipWith (fun l y => l * (1 / y)) t.lot ys }) := by
  refine ⟨?_, ?_, ?_, ?_, ?_, ?_, ?_⟩
  · simp [Trade.rmul, npMul, Except.map]
  · simp [Trade.mul, Trade.rmul, npMul, Except.map]
  · intro h
    simp [Trade.rmul, npMul, h, Except.map]
  · intro h
    simp [Trade.mul, Trade.rmul, npMul, h, Except.map]
  · simp [Trade.neg, Trade.rmul, npMul, Except.map]
  · intro _
    simp [Trade.truediv, npRecip, Trade.rmul, npMul, Except.map]
  · intro h _
    simp [Trade.truediv, npRecip, Trade.rmul, npMul, h, Except.map,
      List.zipWith_map_right]

/-- Witness for C8 at a concrete executed two-asset trade, c = 2,
ys = [2, 4]. -/
theorem C8_scaling_only_multiplies_lot_witness :
    (({ asset := ["A0", "A2"], entry := some 1, close := some 3,
        lot := [1, 2] } : Trade).rmul (.array [2, 4]) =
      .ok { asset := ["A0", "A2"], entry := some 1, close := some 3,
            lot := List.zipWith (· * ·) [1, 2] [2, 4] }) ∧
    (({ asset := ["A0", "A2"], entry := some 1, close := some 3,
        lot := [1, 2] } : Trade).truediv (.scalar 2) =
      .ok { asset := ["A0", "A2"], entry := some 1, close := some 3,
            lot := List.map (· * (1 / 2)) [1, 2] }) ∧
    (({ asset := ["A0", "A2"], entry := some 1, close := some 3,
        lot := [1, 2] } : Trade).truediv (.array [2, 4]) =
      .ok { asset := ["A0", "A2"], entry := some 1, close := some 3,
            lot := List.zipWith (fun l y => l * (1 / y)) [1, 2] [2, 4] }) :=
  ⟨(C8_scaling_only_multiplies_lot _ 2 [2, 4]).2.2.1 (by decide),
   (C8_scaling_only_multiplies_lot _ 2 [2, 4]).2.2.2.2.2.1 (by decide),
   (C8_scaling_only_multiplies_lot _ 2 [2, 4]).2.2.2.2.2.2 (by decide)
     (by decide)⟩

/-- C10: the constructor broadcasts lot to the length of asset, so every
trade it produces satisfies lot.length = asset.length, and every scaling
operation (scalar or length-N array multiplication, division, negation)
preserves that invariant. -/
theorem C10_lot_asset_length_invariant (asset : List String)
    (en ex : Option Label) (tk st : Option ℚ) (lot : NpOperand)
    (t t2 : Trade) (c : ℚ) (ys : List ℚ) :
    (Trade.init asset en ex tk st lot = .ok t →
      t.lot.length = t.asset.length) ∧
    (t2.lot.length = t2.asset.length →
      (t2.rmul (.scalar c) = .ok t → t.lot.length = t.asset.length) ∧
      (ys.length = t2.asset.length → t2.rmul (.array ys) = .ok t →
        t.lot.length = t.asset.length) ∧
      (t2.neg = .ok t → t.lot.length = t.asset.length) ∧
      (t2.truediv (.scalar c) = .ok t → t.lot.length = t.asset.length) ∧
      (ys.length = t2.asset.length → t2.truediv (.array ys) = .ok t →
        t.lot.length = t.asset.length)) := by
  constructor
  · intro h
    rcases lot with x | xs
    · simp only [Trade.init, broadcast_to, Except.map] at h
      cases h
      simp
    · simp only [Trade.init, broadcast_to] at h
      by_cases h1 : xs.length = asset.length
      · rw [if_pos h1] at h
        simp only [Except.map] at h
        cases h
        simpa using h1
      · rw [if_neg h1] at h
        by_cases h2 : xs.length = 1
        · rw [if_pos h2] at h
          simp only [Except.map] at h
          cases h
          simp
        · rw [if_neg h2] at h
          simp [Except.map] at h
  · intro hinv
    refine ⟨?_, ?_, ?_, ?_, ?_⟩
    · intro h
      simp only [Trade.rmul, npMul, Except.map] at h
      cases h
      simpa using hinv
    · intro hlen h
      simp only [Trade.rmul, npMul, hinv ▸ hlen, if_true, Except.map] at h
      cases h
      simp [hinv, hlen]
    · intro h
      simp only [Trade.neg, Trade.rmul, npMul, Except.map] at h
      cases h
      simpa using hinv
    · intro h
      simp only [Trade.truediv, npRecip, Trade.rmul, npMul, Except.map]
        at h
      cases h
      simpa using hinv
    · intro hlen h
      simp only [Trade.truediv, npRecip, Trade.rmul, npMul,
        List.length_map, hinv ▸ hlen, if_true, Except.map] at h
      cases h
      simp [hinv, hlen]

/-- Witness for C10: the constructor with a scalar lot on two assets,
then a length-2 array scaling. -/
theorem C10_lot_asset_length_invariant_witness :
    Trade.init ["A0", "A2"] none none none none (.scalar 1) =
      .ok { asset := ["A0", "A2"], lot := [1, 1] } ∧
    ({ asset := ["A0", "A2"], lot := [1, 1] } : Trade).lot.length =
      ({ asset := ["A0", "A2"], lot := [1, 1] } : Trade).asset.length :=
  ⟨by decide,
   (C10_lot_asset_length_invariant ["A0", "A2"] none none none none
     (.scalar 1) { asset := ["A0", "A2"], lot := [1, 1] } trNoEntry 1
     []).1 (by decide)⟩

/-- C2 counterexample: for an Executed trade the record carries the
close key, load_dict passes it to the constructor as an unexpected
keyword argument, and Python raises TypeError instead of returning any
trade at all, so load_dict(to_dict(t)) == t fails. -/
theorem C2_roundtrip_fails_on_executed :
    ({ asset := ["A0"], entry := some 1, exit := some 6, take := some 2,
       lot := [1], close := some 6 } : Trade).close.isSome = true ∧
    Trade.load_dict
      (Trade.to_dict { asset := ["A0"], entry := some 1, exit := some 6,
                       take := some 2, lot := [1], close := some 6 }) =
      .error .typeError := by
  constructor
  · rfl
  · rfl

/-- C2 amended: for every Pending trade whose lot has the length of its
asset list (the constructor invariant), load_dict(to_dict(t)) succeeds
and returns a trade equal to t under the equality of the source, which
compares every field except close. -/
theorem C2_roundtrip_pending (t : Trade) (hc : t.close = none)
    (hl : t.lot.length = t.asset.length) :
    ∃ t2, Trade.load_dict (Trade.to_dict t) = .ok t2 ∧
      Trade.eq t2 t = true := by
  refine ⟨t, ?_, by simp [Trade.eq]⟩
  have : t = { asset := t.asset, entry := t.entry, exit := t.exit,
               take := t.take, stop := t.stop, lot := t.lot,
               close := none } := by
    cases t
    simp_all
  rw [Trade.load_dict, Trade.to_dict]
  simp only [hc, Option.isSome_none, Bool.false_eq_true, if_false]
  rw [Trade.init, broadcast_to]
  rw [if_pos hl]
  simp only [Except.map]
  rw [← this]

/-- Witness for C2 amended at a concrete pending trade. -/
theorem C2_roundtrip_pending_witness :
    tr16.close = none ∧ tr16.lot.length = tr16.asset.length ∧
    ∃ t2, Trade.load_dict (Trade.to_dict tr16) = .ok t2 ∧
      Trade.eq t2 tr16 = true :=
  ⟨rfl, rfl, C2_roundtrip_pending tr16 rfl rfl⟩

/-- C9: with every check enabled and the asset, index and lot checks
passing, check_trade raises the field-specific error for a negative take
(such as take = -5) and for a positive stop (such as stop = 5), and does
not raise when take and stop are both None. -/
theorem C9_take_stop_validation (t : Trade) (u : Universe)
    (hA : ∀ a ∈ t.asset, a ∈ u.columns)
    (hE : ∀ e, t.entry = some e → e ∈ u.index)
    (hX : ∀ x, t.exit = some x → x ∈ u.index) :
    (∀ tk, t.take = some tk → tk < 0 →
      check_trade t u true true true true true =
        .error (.takeNegative tk)) ∧
    (∀ st, (∀ tk, t.take = some tk → 0 ≤ tk) → t.stop = some st →
      0 < st →
      check_trade t u true true true true true =
        .error (.stopPositive st)) ∧
    (t.take = none → t.stop = none →
      check_trade t u true true true true true = .ok ()) := by
  have hfind : t.asset.find? (fun a => decide (a ∉ u.columns)) = none := by
    rw [List.find?_eq_none]
    intro a ha
    simpa using hA a ha
  have hlot : t.lot.all isFiniteQ = true := by
    simp [isFiniteQ]
  refine ⟨?_, ?_, ?_⟩
  · intro tk htk hneg
    rw [check_trade]
    simp only [if_true, hfind, hlot, htk]
    cases he : t.entry with
    | none =>
      cases hx : t.exit with
      | none => simp [hneg, Bind.bind, Except.bind, Pure.pure, Except.pure, throw, throwThe, MonadExceptOf.throw]
      | some x =>
        have := hX x hx
        simp [this, hneg, Bind.bind, Except.bind, Pure.pure, Except.pure, throw, throwThe, MonadExceptOf.throw]
    | some e =>
      have h1 := hE e he
      cases hx : t.exit with
      | none => simp [h1, hneg, Bind.bind, Except.bind, Pure.pure, Except.pure, throw, throwThe, MonadExceptOf.throw]
      | some x =>
        have h2 := hX x hx
        simp [h1, h2, hneg, Bind.bind, Except.bind, Pure.pure, Except.pure, throw, throwThe, MonadExceptOf.throw]
  · intro st htkpass hst hpos
    rw [check_trade]
    simp only [if_true, hfind, hlot, hst]
    have htk : ∀ tkcase : Option ℚ, t.take = tkcase →
        (match tkcase with
         | some tk => ¬ tk < 0
         | none => True) := by
      intro tkcase h
      cases tkcase with
      | none => trivial
      | some tk => simpa using htkpass tk h
    cases ht : t.take with
    | none =>
      cases he : t.entry with
      | none =>
        cases hx : t.exit with
        | none => simp [hpos, Bind.bind, Except.bind, Pure.pure, Except.pure, throw, throwThe, MonadExceptOf.throw]
        | some x => simp [hX x hx, hpos, Bind.bind, Except.bind, Pure.pure, Except.pure, throw, throwThe, MonadExceptOf.throw]
      | some e =>
        cases hx : t.exit with
        | none => simp [hE e he, hpos, Bind.bind, Except.bind, Pure.pure, Except.pure, throw, throwThe, MonadExceptOf.throw]
        | some x => simp [hE e he, hX x hx, hpos, Bind.bind, Except.bind, Pure.pure, Except.pure, throw, throwThe, MonadExceptOf.throw]
    | some tk =>
      have hnn : ¬ tk < 0 := by simpa using htkpass tk ht
      cases he : t.entry with
      | none =>
        cases hx : t.exit with
        | none => simp [hnn, hpos, Bind.bind, Except.bind, Pure.pure, Except.pure, throw, throwThe, MonadExceptOf.throw]
        | some x => simp [hX x hx, hnn, hpos, Bind.bind, Except.bind, Pure.pure, Except.pure, throw, throwThe, MonadExceptOf.throw]
      | some e =>
        cases hx : t.exit with
        | none => simp [hE e he, hnn, hpos, Bind.bind, Except.bind, Pure.pure, Except.pure, throw, throwThe, MonadExceptOf.throw]
        | some x =>
          simp [hE e he, hX x hx, hnn, hpos, Bind.bind, Except.bind, Pure.pure, Except.pure, throw, throwThe, MonadExceptOf.throw]
  · intro ht hs
    rw [check_trade]
    simp only [if_true, hfind, hlot, ht, hs]
    cases he : t.entry with
    | none =>
      cases hx : t.exit with
      | none => simp [Bind.bind, Except.bind, Pure.pure, Except.pure, throw, throwThe, MonadExceptOf.throw]
      | some x => simp [hX x hx, Bind.bind, Except.bind, Pure.pure, Except.pure, throw, throwThe, MonadExceptOf.throw]
    | some e =>
      cases hx : t.exit with
      | none => simp [hE e he, Bind.bind, Except.bind, Pure.pure, Except.pure, throw, throwThe, MonadExceptOf.throw]
      | some x => simp [hE e he, hX x hx, Bind.bind, Except.bind, Pure.pure, Except.pure, throw, throwThe, MonadExceptOf.throw]

/-- Witness for C9 at concrete trades over uni3: take = -5 rejected,
stop = 5 rejected, both None accepted. -/
theorem C9_take_stop_validation_witness :
    check_trade { asset := ["A"], entry := some 1, take := some (-5),
                  lot := [1] } uni3 true true true true true =
      .error (.takeNegative (-5)) ∧
    check_trade { asset := ["A"], entry := some 1, stop := some 5,
                  lot := [1] } uni3 true true true true true =
      .error (.stopPositive 5) ∧
    check_trade { asset := ["A"], entry := some 1, lot := [1] } uni3
      true true true true true = .ok () :=
  ⟨(C9_take_stop_validation
      { asset := ["A"], entry := some 1, take := some (-5), lot := [1] }
      uni3 (by decide) (by intro e he; cases he; decide)
      (by intro x hx; cases hx)).1 (-5) rfl (by norm_num),
   (C9_take_stop_validation
      { asset := ["A"], entry := some 1, stop := some 5, lot := [1] }
      uni3 (by decide) (by intro e he; cases he; decide)
      (by intro x hx; cases hx)).2.1 5 (by intro tk htk; cases htk) rfl
      (by norm_num),
   (C9_take_stop_validation
      { asset := ["A"], entry := some 1, lot := [1] } uni3 (by decide)
      (by intro e he; cases he; decide)
      (by intro x hx; cases hx)).2.2 rfl rfl⟩

/-- C6: for every trade with both take and stop unset, over a table that
contains its assets and its resolved entry and exit labels, execute sets
close to the resolved exit: the explicit exit when set, otherwise the
last row label of the table. -/
theorem C6_close_is_resolved_exit (t : Trade) (u : Universe)
    (en ex : Label) (htk : t.take = none) (hst : t.stop = none)
    (hen : t.entry = some en ∨ (t.entry = none ∧ u.index.head? = some en))
    (hex : t.exit = some ex ∨
      (t.exit = none ∧ u.index.getLast? = some ex))
    (ha : ∀ a ∈ t.asset, a ∈ u.columns)
    (hin : en ∈ u.index) (hix : ex ∈ u.index) :
    t.execute u = .ok { t with close := some ex } := by
  have hnone : ¬ ∃ x ∈ t.asset, x ∉ u.columns := by
    push_neg
    exact ha
  rcases hen with hen | ⟨hen, hhd⟩ <;> rcases hex with hex | ⟨hex, hlast⟩
  · rw [Trade.execute]
    simp [hen, hex, hnone, hin, hix, htk, hst, Bind.bind, Except.bind,
      Pure.pure, Except.pure, throw, throwThe, MonadExceptOf.throw]
  · rw [Trade.execute]
    simp [hen, hex, hlast, hnone, hin, hix, htk, hst, Bind.bind,
      Except.bind, Pure.pure, Except.pure, throw, throwThe,
      MonadExceptOf.throw]
  · rw [Trade.execute]
    simp [hen, hex, hhd, hnone, hin, hix, htk, hst, Bind.bind,
      Except.bind, Pure.pure, Except.pure, throw, throwThe,
      MonadExceptOf.throw]
  · rw [Trade.execute]
    simp [hen, hex, hhd, hlast, hnone, hin, hix, htk, hst, Bind.bind,
      Except.bind, Pure.pure, Except.pure, throw, throwThe,
      MonadExceptOf.throw]

/-- Witness for C6: the doctest trade tr16 (entry 1, exit 6, no
barriers) on uni7 closes at its exit label 6. -/
theorem C6_close_is_resolved_exit_witness :
    tr16.execute uni7 = .ok { tr16 with close := some 6 } :=
  C6_close_is_resolved_exit tr16 uni7 1 6 rfl rfl (Or.inl rfl)
    (Or.inl rfl) (by decide) (by decide) (by decide)

/-- A trade over uni7 with entry 1, exit 6 and take 2 (the doctest
barrier example). -/
def trTake2 : Trade :=
  { asset := ["A0"], entry := some 1, exit := some 6, take := some 2,
    lot := [1] }

/-- C3 counterexample: the claim admits take = 0 (take >= 0), but with
take = 0 the pre-entry rows, whose relative pnl is forced to 0, already
satisfy pnl >= take, and execute closes trTake0 at row 0 although its
entry is at row 1. -/
theorem C3_counterexample_take_zero :
    trTake0.execute uni3 = .ok { trTake0 with close := some 0 } ∧
    (trTake0.signal uni3
      (List.indexOf (1 : Label) uni3.index)).getD 0 false = true ∧
    List.indexOf (0 : Label) uni3.index <
      List.indexOf (1 : Label) uni3.index := by
  exact ⟨by decide, by decide, by decide⟩

/-- C3 amended: with strict thresholds (take > 0 when set, stop < 0 when
set, as the constructor docstring describes them) and entry row at or
before the exit row, no row strictly before the resolved entry row
satisfies the trigger condition, and the close row set by execute is
never strictly before the entry row. -/
theorem C3_amended_no_pre_entry_trigger (t : Trade) (u : Universe)
    (en ex : Label)
    (hen : t.entry = some en ∨ (t.entry = none ∧ u.index.head? = some en))
    (hex : t.exit = some ex ∨
      (t.exit = none ∧ u.index.getLast? = some ex))
    (ha : ∀ a ∈ t.asset, a ∈ u.columns)
    (hin : en ∈ u.index) (hix : ex ∈ u.index)
    (hts : t.take.isSome ∨ t.stop.isSome)
    (htk : ∀ tk, t.take = some tk → 0 < tk)
    (hst : ∀ st, t.stop = some st → st < 0)
    (hEX : List.indexOf en u.index ≤ List.indexOf ex u.index) :
    (∀ r, r < List.indexOf en u.index →
      (t.signal u (List.indexOf en u.index)).getD r false = false) ∧
    List.indexOf en u.index ≤
      t.closeIdx u (List.indexOf en u.index) (List.indexOf ex u.index) ∧
    t.execute u = .ok { t with close := some (u.index.getD
      (t.closeIdx u (List.indexOf en u.index)
        (List.indexOf ex u.index)) 0) } := by
  have hiEn : List.indexOf en u.index < u.nbars :=
    List.indexOf_lt_length.2 hin
  have hiEx : List.indexOf ex u.index < u.nbars :=
    List.indexOf_lt_length.2 hix
  have part1 : ∀ r, r < List.indexOf en u.index →
      (t.signal u (List.indexOf en u.index)).getD r false = false := by
    intro r hr
    have hrn : r < u.nbars := lt_trans hr hiEn
    rw [getD_signal t u hrn,
      getD_execPnl_pre t u hr hrn]
    rcases ht : t.take with _ | tk <;> rcases hs : t.stop with _ | st
    · simp [ht, hs]
    · have h1 := hst st hs
      simp [ht, hs, not_le.2 h1]
    · have h1 := htk tk ht
      simp [ht, hs, not_le.2 h1]
    · have h1 := htk tk ht
      have h2 := hst st hs
      simp [ht, hs, not_le.2 h1, not_le.2 h2]
  have hlen : (t.signal u (List.indexOf en u.index)).length = u.nbars :=
    length_signal t u _
  have part2 : List.indexOf en u.index ≤
      t.closeIdx u (List.indexOf en u.index) (List.indexOf ex u.index) := by
    rw [Trade.closeIdx]
    rcases (searchsorted_spec
        (t.signal u (List.indexOf en u.index))).2 with h | h
    · rw [h, hlen]
      omega
    · have hge : List.indexOf en u.index ≤
          searchsorted (t.signal u (List.indexOf en u.index)) := by
        by_contra hcon
        push_neg at hcon
        rw [part1 _ hcon] at h
        exact Bool.false_ne_true h
      omega
  have part3 : t.execute u = .ok { t with close := some (u.index.getD
      (t.closeIdx u (List.indexOf en u.index)
        (List.indexOf ex u.index)) 0) } := by
    have hnone : ¬ ∃ x ∈ t.asset, x ∉ u.columns := by
      push_neg
      exact ha
    have hts2 : (t.take.isSome || t.stop.isSome) = true := by
      rcases hts with h | h <;> simp [h]
    rcases hen with hen | ⟨hen, hhd⟩ <;> rcases hex with hex | ⟨hex, hlast⟩
    · rw [Trade.execute]
      simp [hen, hex, hnone, hin, hix, hts2, Bind.bind, Except.bind,
        Pure.pure, Except.pure, throw, throwThe, MonadExceptOf.throw]
    · rw [Trade.execute]
      simp [hen, hex, hlast, hnone, hin, hix, hts2, Bind.bind,
        Except.bind, Pure.pure, Except.pure, throw, throwThe,
        MonadExceptOf.throw]
    · rw [Trade.execute]
      simp [hen, hex, hhd, hnone, hin, hix, hts2, Bind.bind, Except.bind,
        Pure.pure, Except.pure, throw, throwThe, MonadExceptOf.throw]
    · rw [Trade.execute]
      simp [hen, hex, hhd, hlast, hnone, hin, hix, hts2, Bind.bind,
        Except.bind, Pure.pure, Except.pure, throw, throwThe,
        MonadExceptOf.throw]
  exact ⟨part1, part2, part3⟩

/-- Witness for C3 amended: the doctest barrier trade trTake2 (take = 2,
entry row 1, exit row 6) on uni7. -/
theorem C3_amended_no_pre_entry_trigger_witness :
    (∀ r, r < List.indexOf (1 : Label) uni7.index →
      (trTake2.signal uni7
        (List.indexOf (1 : Label) uni7.index)).getD r false = false) ∧
    List.indexOf (1 : Label) uni7.index ≤
      trTake2.closeIdx uni7 (List.indexOf (1 : Label) uni7.index)
        (List.indexOf (6 : Label) uni7.index) ∧
    trTake2.execute uni7 = .ok { trTake2 with close := some (uni7.index.getD (trTake2.closeIdx uni7 (List.indexOf (1 : Label) uni7.index) (List.indexOf (6 : Label) uni7.index)) 0) } :=
  C3_amended_no_pre_entry_trigger trTake2 uni7 1 6 (Or.inl rfl)
    (Or.inl rfl) (by decide) (by decide) (by decide) (Or.inl (by decide))
    (by intro tk h; cases h; norm_num)
    (by intro st h; cases h) (by decide)

/-- C1 (code divergence at a concrete input): on the price path
1, 4, 1, 1 with take = 2 the trigger signal is [false, true, false,
false], non-monotonic.  The chronologically first trigger row is 1, and
capped by the exit row the close label mandated by the spec is 1; but
execute applies np.searchsorted to the unsorted signal, obtains 4, and
closes at the exit label 3. -/
theorem C1_searchsorted_misses_first_trigger :
    trSpike.execute uniSpike = .ok { trSpike with close := some 3 } ∧
    trSpike.signal uniSpike
      (List.indexOf (0 : Label) uniSpike.index) =
      [false, true, false, false] ∧
    searchsorted [false, true, false, false] = 4 ∧
    specFirstTrigger [false, true, false, false] = 1 ∧
    uniSpike.index.getD (min (List.indexOf (3 : Label) uniSpike.index)
      (specFirstTrigger (trSpike.signal uniSpike
        (List.indexOf (0 : Label) uniSpike.index)))) 0 = 1 := by
  exact ⟨by decide, by decide, by decide, by decide, by decide⟩

/-- C5 (code divergence at a concrete input): for an executed trade
whose entry is None, final_pnl does not resolve the entry to the first
row; get_indexer returns -1, which Python indexing then treats as the
last row, and the returned PnL is the zero vector [0] instead of the
first-row-to-close PnL [2] stated by the claim. -/
theorem C5_final_pnl_entry_none_zero :
    trNoEntry.execute uni3 = .ok { trNoEntry with close := some 2 } ∧
    Trade.final_pnl { trNoEntry with close := some 2 } uni3 = .ok [0] ∧
    uni3.getIndexer trNoEntry.entry = -1 ∧
    (1 : ℚ) * (uni3.priceAt 2 "A" - uni3.priceAt 0 "A") = 2 := by
  exact ⟨by decide, by decide, by decide, by decide⟩

theorem getD_map {α β : Type} (l : List α) (f : α → β) (r : Nat)
    (d : β) (d0 : α) (h : r < l.length) :
    (l.map f).getD r d = f (l.getD r d0) := by
  rw [List.getD_eq_getElem _ _ (by simpa using h), List.getElem_map,
    List.getD_eq_getElem _ _ h]

theorem getD_zipWith {α β γ : Type} (f : α → β → γ) (l1 : List α)
    (l2 : List β) (k : Nat) (d : γ) (d1 : α) (d2 : β)
    (h1 : k < l1.length) (h2 : k < l2.length) :
    (List.zipWith f l1 l2).getD k d =
      f (l1.getD k d1) (l2.getD k d2) := by
  rw [List.getD_eq_getElem _ _
    (by rw [List.length_zipWith]; exact lt_min h1 h2),
    List.getElem_zipWith, List.getD_eq_getElem _ _ h1,
    List.getD_eq_getElem _ _ h2]

theorem getD_map_zero (row : List ℚ) (k : Nat) :
    (row.map (fun _ => (0 : ℚ))).getD k 0 = 0 := by
  by_cases h : k < row.length
  · rw [getD_map _ _ _ _ (row.getD k 0) h]
  · rw [List.getD_eq_default]
    rw [List.length_map]
    omega

theorem pyNorm_natCast (n : Nat) (i : Nat) : pyNorm n (i : Int) = i := by
  simp [pyNorm]

theorem rowGet_natCast (m : List (List ℚ)) (i : Nat) :
    rowGet m (i : Int) = m.getD i [] := by
  have h1 : ¬ ((i : Int) < 0) := by omega
  simp only [rowGet, pyNorm, h1, if_false, Int.toNat_natCast]

theorem rowGet_neg_one (m : List (List ℚ)) (h : 1 ≤ m.length) :
    rowGet m (-1) = m.getD (m.length - 1) [] := by
  have h1 : ((-1 : Int) < 0) := by norm_num
  have h2 : ¬ ((m.length : Int) + (-1) < 0) := by omega
  have h3 : ((m.length : Int) + (-1)).toNat = m.length - 1 := by omega
  simp only [rowGet, pyNorm, h1, if_true, h2, if_false, h3]

theorem length_valueRow (t : Trade) (u : Universe) (r : Nat) :
    (t.valueRow u r).length = min t.lot.length t.asset.length := by
  simp [Trade.valueRow]

theorem getD_valueRow (t : Trade) (u : Universe) {r k : Nat}
    (h1 : k < t.lot.length) (h2 : k < t.asset.length) :
    (t.valueRow u r).getD k 0 =
      t.lot.getD k 0 * u.priceAt r (t.asset.getD k "") := by
  rw [Trade.valueRow, getD_zipWith _ _ _ _ _ 0 "" h1 h2]

theorem length_pnlRaw (t : Trade) (u : Universe) (iE : Int) :
    (t.pnlRaw u iE).length = u.nbars := by
  simp [Trade.pnlRaw, length_array_value]

theorem getD_pnlRaw (t : Trade) (u : Universe) {iE : Int} {r : Nat}
    (h : r < u.nbars) :
    (t.pnlRaw u iE).getD r [] =
      List.zipWith (fun a b => a - b) (t.valueRow u r)
        (rowGet (t.array_value u) iE) := by
  rw [Trade.pnlRaw,
    getD_map _ _ _ _ [] (by simpa [length_array_value] using h),
    getD_array_value t u h]

theorem length_pnlZeroed (t : Trade) (u : Universe) (iE : Int) :
    (t.pnlZeroed u iE).length = u.nbars := by
  simp [Trade.pnlZeroed, List.length_mapIdx, length_pnlRaw]

theorem getD_pnlZeroed (t : Trade) (u : Universe) {iE : Int} {r : Nat}
    (h : r < u.nbars) :
    (t.pnlZeroed u iE).getD r [] =
      if (r : Int) < pyNorm u.nbars iE then
        ((t.pnlRaw u iE).getD r []).map (fun _ => (0 : ℚ))
      else (t.pnlRaw u iE).getD r [] := by
  rw [Trade.pnlZeroed,
    getD_mapIdx _ _ _ _ [] (by simpa [length_pnlRaw] using h)]

theorem length_pnlMatrix (t : Trade) (u : Universe) (iE iC : Int) :
    (t.pnlMatrix u iE iC).length = u.nbars := by
  simp [Trade.pnlMatrix, List.length_mapIdx, length_pnlZeroed]

theorem getD_pnlMatrix (t : Trade) (u : Universe) {iE iC : Int}
    {r : Nat} (h : r < u.nbars) :
    (t.pnlMatrix u iE iC).getD r [] =
      if pyNorm u.nbars iC ≤ (r : Int) then
        rowGet (t.pnlZeroed u iE) iC
      else (t.pnlZeroed u iE).getD r [] := by
  rw [Trade.pnlMatrix,
    getD_mapIdx _ _ _ _ [] (by simpa [length_pnlZeroed] using h)]

/-- C4: for every Executed trade whose entry and close labels are rows
of the table with entry row at or before close row, final_pnl returns a
vector with one component per asset leg, never a combined scalar, whose
k-th component is lot[k] * (price[close_row, asset[k]] -
price[entry_row, asset[k]]); moreover in the pnl matrix every row before
the entry row is zero and every row from the close row on equals the
close row (the freeze law), and the returned vector is the last row of
that matrix. -/
theorem C4_final_pnl_per_asset (t : Trade) (u : Universe) (en cl : Label)
    (hen : t.entry = some en) (hcl : t.close = some cl)
    (hin : en ∈ u.index) (hicm : cl ∈ u.index)
    (hle : List.indexOf en u.index ≤ List.indexOf cl u.index)
    (ha : ∀ a ∈ t.asset, a ∈ u.columns)
    (hN : t.lot.length = t.asset.length) :
    ∃ res, t.final_pnl u = .ok res ∧
      res.length = t.asset.length ∧
      (∀ k, k < t.asset.length →
        res.getD k 0 = t.lot.getD k 0 *
          (u.priceAt (List.indexOf cl u.index) (t.asset.getD k "") -
           u.priceAt (List.indexOf en u.index) (t.asset.getD k ""))) ∧
      (∀ r, r < List.indexOf en u.index → ∀ k,
        ((t.pnlMatrix u (List.indexOf en u.index : Int)
          (List.indexOf cl u.index : Int)).getD r []).getD k 0 = 0) ∧
      (∀ r, List.indexOf cl u.index ≤ r → r < u.nbars →
        (t.pnlMatrix u (List.indexOf en u.index : Int)
          (List.indexOf cl u.index : Int)).getD r [] =
        (t.pnlMatrix u (List.indexOf en u.index : Int)
          (List.indexOf cl u.index : Int)).getD
            (List.indexOf cl u.index) []) := by
  have hieLt : List.indexOf en u.index < u.nbars :=
    List.indexOf_lt_length.2 hin
  have hicLt : List.indexOf cl u.index < u.nbars :=
    List.indexOf_lt_length.2 hicm
  have hn1 : 1 ≤ u.nbars := by omega
  have hfrozen : rowGet
      (t.pnlZeroed u (List.indexOf en u.index : Int))
      (List.indexOf cl u.index : Int) =
      List.zipWith (fun a b => a - b)
        (t.valueRow u (List.indexOf cl u.index))
        (t.valueRow u (List.indexOf en u.index)) := by
    rw [rowGet_natCast, getD_pnlZeroed t u hicLt, pyNorm_natCast]
    rw [if_neg (by exact_mod_cast not_lt.2 hle)]
    rw [getD_pnlRaw t u hicLt, rowGet_natCast,
      getD_array_value t u hieLt]
  have hlastval : (t.pnlMatrix u (List.indexOf en u.index : Int)
      (List.indexOf cl u.index : Int)).getD (u.nbars - 1) [] =
      List.zipWith (fun a b => a - b)
        (t.valueRow u (List.indexOf cl u.index))
        (t.valueRow u (List.indexOf en u.index)) := by
    rw [getD_pnlMatrix t u (by omega), pyNorm_natCast]
    rw [if_pos (by omega)]
    exact hfrozen
  have hnone : (t.asset.any (fun a => decide (a ∉ u.columns))) = false := by
    rw [List.any_eq_false]
    intro a ha2
    simpa using ha a ha2
  have hIE : u.getIndexer t.entry = (List.indexOf en u.index : Int) := by
    simp [Universe.getIndexer, hen, hin]
  have hIC : u.getIndexer (some cl) = (List.indexOf cl u.index : Int) := by
    simp [Universe.getIndexer, hicm]
  have hfp : t.final_pnl u = .ok (rowGet
      (t.pnlMatrix u (List.indexOf en u.index : Int)
        (List.indexOf cl u.index : Int)) (-1)) := by
    rw [Trade.final_pnl, hcl]
    simp only [hnone, Bool.false_eq_true, if_false, hIE, hIC]
  have hlast : rowGet (t.pnlMatrix u (List.indexOf en u.index : Int)
      (List.indexOf cl u.index : Int)) (-1) =
      (t.pnlMatrix u (List.indexOf en u.index : Int)
        (List.indexOf cl u.index : Int)).getD (u.nbars - 1) [] := by
    rw [rowGet_neg_one _ (by rw [length_pnlMatrix]; omega),
      length_pnlMatrix]
  refine ⟨List.zipWith (fun a b => a - b)
    (t.valueRow u (List.indexOf cl u.index))
    (t.valueRow u (List.indexOf en u.index)), ?_, ?_, ?_, ?_, ?_⟩
  · rw [hfp, hlast, hlastval]
  · rw [List.length_zipWith, length_valueRow, length_valueRow, hN]
    simp
  · intro k hk
    have hkl : k < t.lot.length := by omega
    have hkv : ∀ r : Nat, k < (t.valueRow u r).length := by
      intro r
      rw [length_valueRow, hN]
      simp [hk]
    rw [getD_zipWith _ _ _ _ _ 0 0 (hkv _) (hkv _),
      getD_valueRow t u hkl hk, getD_valueRow t u hkl hk]
    ring
  · intro r hr k
    have hrn : r < u.nbars := by omega
    rw [getD_pnlMatrix t u hrn, pyNorm_natCast]
    rw [if_neg (by omega)]
    rw [getD_pnlZeroed t u hrn, pyNorm_natCast]
    rw [if_pos (by omega)]
    exact getD_map_zero _ _
  · intro r h1 h2
    rw [getD_pnlMatrix t u h2, pyNorm_natCast]
    rw [if_pos (by omega)]
    rw [getD_pnlMatrix t u hicLt, pyNorm_natCast]
    rw [if_pos (by omega)]

/-- The 5-row doctest price table: A0 = 1..5, A1 = 2..6, A2 = 3..7. -/
def uni5 : Universe :=
  ⟨[0, 1, 2, 3, 4], ["A0", "A1", "A2"],
   [[1, 2, 3], [2, 3, 4], [3, 4, 5], [4, 5, 6], [5, 6, 7]]⟩

/-- The executed doctest trade on A0 and A2 with entry 1 and close 3. -/
def trPair : Trade :=
  { asset := ["A0", "A2"], entry := some 1, exit := some 3,
    lot := [1, 1], close := some 3 }

/-- Witness for C4 at the final_pnl doctest input (expected result
[2, 2]). -/
theorem C4_final_pnl_per_asset_witness :
    ∃ res, trPair.final_pnl uni5 = .ok res ∧
      res.length = trPair.asset.length ∧
      (∀ k, k < trPair.asset.length →
        res.getD k 0 = trPair.lot.getD k 0 *
          (uni5.priceAt (List.indexOf (3 : Label) uni5.index)
            (trPair.asset.getD k "") -
           uni5.priceAt (List.indexOf (1 : Label) uni5.index)
            (trPair.asset.getD k ""))) ∧
      (∀ r, r < List.indexOf (1 : Label) uni5.index → ∀ k,
        ((trPair.pnlMatrix uni5 (List.indexOf (1 : Label) uni5.index : Int)
          (List.indexOf (3 : Label) uni5.index : Int)).getD r []).getD
            k 0 = 0) ∧
      (∀ r, List.indexOf (3 : Label) uni5.index ≤ r → r < uni5.nbars →
        (trPair.pnlMatrix uni5 (List.indexOf (1 : Label) uni5.index : Int)
          (List.indexOf (3 : Label) uni5.index : Int)).getD r [] =
        (trPair.pnlMatrix uni5 (List.indexOf (1 : Label) uni5.index : Int)
          (List.indexOf (3 : Label) uni5.index : Int)).getD
            (List.indexOf (3 : Label) uni5.index) []) :=
  C4_final_pnl_per_asset trPair uni5 1 3 rfl rfl (by decide) (by decide)
    (by decide) (by decide) rfl

end Epym
